import Mathlib

/-!
Shallow embedding of the `cache-control` Rust crate (file `src/lib.rs`):
a parser turning the value of an HTTP `Cache-Control` header into a
structured record.  Strings are modelled as `List Char` (Rust `&str`,
accessed through `String.data` at the API boundary), machine integers
as `Nat` with explicit bounds where the source's `u64` range matters.
-/

namespace CacheControlSpec

/-- Rust `char::is_whitespace`: the Unicode `White_Space` property.
Used by `str::trim`. -/
def isRustWhitespace (c : Char) : Bool :=
  c.toNat = 0x09 || c.toNat = 0x0A || c.toNat = 0x0B || c.toNat = 0x0C ||
  c.toNat = 0x0D || c.toNat = 0x20 || c.toNat = 0x85 || c.toNat = 0xA0 ||
  c.toNat = 0x1680 || (0x2000 ≤ c.toNat && c.toNat ≤ 0x200A) ||
  c.toNat = 0x2028 || c.toNat = 0x2029 || c.toNat = 0x202F ||
  c.toNat = 0x205F || c.toNat = 0x3000

/-- Rust `str::trim`: remove leading and trailing whitespace. -/
def trimChars (l : List Char) : List Char :=
  ((l.dropWhile isRustWhitespace).reverse.dropWhile isRustWhitespace).reverse

/-- Rust `str::split` with a one-character pattern: yields the (possibly
empty) substrings between occurrences of `sep`; the empty string yields
one empty piece, matching Rust's iterator. -/
def splitOnChar (sep : Char) : List Char → List (List Char)
  | [] => [[]]
  | c :: cs =>
    if c = sep then
      [] :: splitOnChar sep cs
    else
      match splitOnChar sep cs with
      | [] => [[c]]
      | g :: gs => (c :: g) :: gs

/-- `splitOnChar` never returns the empty list (Rust's split iterator
always yields at least one piece). -/
theorem splitOnChar_ne_nil (sep : Char) (l : List Char) :
    splitOnChar sep l ≠ [] := by
  cases l with
  | nil => simp [splitOnChar]
  | cons c cs =>
    by_cases h : c = sep
    · simp [splitOnChar, h]
    · simp only [splitOnChar, if_neg h]
      cases splitOnChar sep cs <;> simp

/-- Digit accumulation used to model Rust's base-10 integer parsing. -/
def digitsToNat (l : List Char) : Nat :=
  l.foldl (fun a c => a * 10 + (c.toNat - 48)) 0

/-- Rust `u64::from_str` (the `val_d.parse()` calls in `from_value`, whose
result type is inferred as `u64` from `Duration::new`): an optional
leading `+`, then one or more ASCII digits, the value fitting in 64 bits;
anything else (empty string, a `-` sign, non-digits, overflow) is an
error. -/
def parseU64 (s : List Char) : Option Nat :=
  let ds := match s with
    | '+' :: rest => rest
    | _ => s
  if ds = [] then none
  else if ds.all Char.isDigit then
    let n := digitsToNat ds
    if n < 2 ^ 64 then some n else none
  else none

/-- Rust `std::time::Duration` (only `Duration::new(secs, nanos)` with
`nanos = 0` is used by the source). -/
structure Duration where
  secs : Nat
  nanos : Nat
  deriving DecidableEq, Repr

/-- `Duration::new`. -/
def Duration.new (secs nanos : Nat) : Duration := ⟨secs, nanos⟩

/-- The `Cachability` enum. -/
inductive Cachability where
  | Public
  | Private
  | NoCache
  | OnlyIfCached
  deriving DecidableEq, Repr

/-- The `CacheControl` struct. -/
structure CacheControl where
  cachability : Option Cachability
  max_age : Option Duration
  s_max_age : Option Duration
  max_stale : Option Duration
  min_fresh : Option Duration
  must_revalidate : Bool
  proxy_revalidate : Bool
  immutable : Bool
  no_store : Bool
  no_transform : Bool
  stale_while_revalidate : Option Duration
  stale_if_error : Option Duration
  deriving DecidableEq, Repr

/-- `impl Default for CacheControl`. -/
def CacheControl.default : CacheControl :=
  { cachability := none
    max_age := none
    s_max_age := none
    max_stale := none
    min_fresh := none
    must_revalidate := false
    proxy_revalidate := false
    immutable := false
    no_store := false
    no_transform := false
    stale_while_revalidate := none
    stale_if_error := none }

/-- `CacheControl::new`, which returns `CacheControl::default()`. -/
def CacheControl.new : CacheControl := CacheControl.default

/-- Lines 59-61 of `from_value`: split the token on `"="`, trim every
piece, take piece 0 as the key and piece 1 (when present) as the value. -/
def tokenKeyVal (token : List Char) : List Char × Option (List Char) :=
  let key_value := (splitOnChar '=' token).map trimChars
  (key_value.headD [], key_value.get? 1)

/-- The four-line pattern each numeric directive branch of `from_value`
repeats: `if let None = val { return None }`, parse the value, `if let
Err(_) = p_val { return None }`, store the parsed seconds. -/
def numericUpdate (val : Option (List Char)) (store : Nat → CacheControl) :
    Option CacheControl :=
  match val with
  | none => none
  | some v =>
    match parseU64 v with
    | none => none
    | some n => some (store n)

/-- The body of the `for token in tokens` loop of `CacheControl::from_value`:
dispatch on the trimmed key, mutate the accumulator, and return `none`
(the Rust `return None`) when a numeric directive's value is missing or
fails to parse. -/
def processToken (acc : CacheControl) (token : List Char) : Option CacheControl :=
  let key := (tokenKeyVal token).1
  let val := (tokenKeyVal token).2
  if key = ("public").data then some { acc with cachability := some Cachability.Public }
  else if key = ("private").data then some { acc with cachability := some Cachability.Private }
  else if key = ("no-cache").data then some { acc with cachability := some Cachability.NoCache }
  else if key = ("only-if-cached").data then
    some { acc with cachability := some Cachability.OnlyIfCached }
  else if key = ("max-age").data then
    numericUpdate val (fun n => { acc with max_age := some (Duration.new n 0) })
  else if key = ("max-stale").data then
    numericUpdate val (fun n => { acc with max_stale := some (Duration.new n 0) })
  else if key = ("min-fresh").data then
    numericUpdate val (fun n => { acc with min_fresh := some (Duration.new n 0) })
  else if key = ("must-revalidate").data then some { acc with must_revalidate := true }
  else if key = ("proxy-revalidate").data then some { acc with proxy_revalidate := true }
  else if key = ("immutable").data then some { acc with immutable := true }
  else if key = ("no-store").data then some { acc with no_store := true }
  else if key = ("no-transform").data then some { acc with no_transform := true }
  else if key = ("stale-while-revalidate").data then
    numericUpdate val (fun n => { acc with stale_while_revalidate := some (Duration.new n 0) })
  else if key = ("stale-if-error").data then
    numericUpdate val (fun n => { acc with stale_if_error := some (Duration.new n 0) })
  else some acc

/-- The `for` loop of `from_value`: process the tokens left to right,
aborting with `none` as soon as one token does. -/
def processTokens (acc : CacheControl) : List (List Char) → Option CacheControl
  | [] => some acc
  | t :: ts =>
    match processToken acc t with
    | none => none
    | some acc' => processTokens acc' ts

/-- `CacheControl::from_value` on the character list of its argument. -/
def fromValueChars (value : List Char) : Option CacheControl :=
  processTokens CacheControl.new (splitOnChar ',' value)

/-- `CacheControl::from_value`. -/
def CacheControl.from_value (value : String) : Option CacheControl :=
  fromValueChars value.data

/-- `CacheControl::from_header`: split on `":"`, trim each segment; fail
unless there are exactly two segments and the first is the literal
`"Cache-Control"`; otherwise delegate the second segment to
`from_value`. -/
def CacheControl.from_header (value : String) : Option CacheControl :=
  let header_value := (splitOnChar ':' value.data).map trimChars
  if header_value.length ≠ 2 ∨ header_value.headD [] ≠ ("Cache-Control").data then none
  else fromValueChars (header_value.getD 1 [])

/-! ### Analysis helpers

Total functions and predicates used to characterise the parser's
behaviour; they are proved equivalent to the source translation above. -/

/-- The trimmed key is one of the five numeric (duration) directives. -/
def IsNumericKey (key : List Char) : Prop :=
  key = ("max-age").data ∨ key = ("max-stale").data ∨ key = ("min-fresh").data ∨
  key = ("stale-while-revalidate").data ∨ key = ("stale-if-error").data

instance : DecidablePred IsNumericKey := fun key => by
  unfold IsNumericKey; infer_instance

/-- A token that makes the whole parse fail: a numeric directive whose
value segment is missing or does not parse as a `u64`. -/
def BadToken (t : List Char) : Prop :=
  IsNumericKey (tokenKeyVal t).1 ∧ ((tokenKeyVal t).2).bind parseU64 = none

instance : DecidablePred BadToken := fun t => by
  unfold BadToken; infer_instance

/-- The cachability variant a trimmed key selects, if any. -/
def cachVariantKey (key : List Char) : Option Cachability :=
  if key = ("public").data then some Cachability.Public
  else if key = ("private").data then some Cachability.Private
  else if key = ("no-cache").data then some Cachability.NoCache
  else if key = ("only-if-cached").data then some Cachability.OnlyIfCached
  else none

/-- The accumulator update a non-aborting token performs (for a bad
numeric token this function is irrelevant: `processToken` aborts). -/
def applyToken (acc : CacheControl) (token : List Char) : CacheControl :=
  let key := (tokenKeyVal token).1
  let val := (tokenKeyVal token).2
  if key = ("public").data then { acc with cachability := some Cachability.Public }
  else if key = ("private").data then { acc with cachability := some Cachability.Private }
  else if key = ("no-cache").data then { acc with cachability := some Cachability.NoCache }
  else if key = ("only-if-cached").data then
    { acc with cachability := some Cachability.OnlyIfCached }
  else if key = ("max-age").data then
    { acc with max_age := some (Duration.new ((val.bind parseU64).getD 0) 0) }
  else if key = ("max-stale").data then
    { acc with max_stale := some (Duration.new ((val.bind parseU64).getD 0) 0) }
  else if key = ("min-fresh").data then
    { acc with min_fresh := some (Duration.new ((val.bind parseU64).getD 0) 0) }
  else if key = ("must-revalidate").data then { acc with must_revalidate := true }
  else if key = ("proxy-revalidate").data then { acc with proxy_revalidate := true }
  else if key = ("immutable").data then { acc with immutable := true }
  else if key = ("no-store").data then { acc with no_store := true }
  else if key = ("no-transform").data then { acc with no_transform := true }
  else if key = ("stale-while-revalidate").data then
    { acc with stale_while_revalidate := some (Duration.new ((val.bind parseU64).getD 0) 0) }
  else if key = ("stale-if-error").data then
    { acc with stale_if_error := some (Duration.new ((val.bind parseU64).getD 0) 0) }
  else acc

/-- `numericUpdate` fails exactly when the value segment is missing or
unparsable, and otherwise stores the parsed number. -/
theorem numericUpdate_eq (val : Option (List Char)) (store : Nat → CacheControl) :
    numericUpdate val store =
      if Option.bind val parseU64 = none then none
      else some (store ((Option.bind val parseU64).getD 0)) := by
  rcases val with _ | v
  · rfl
  · simp only [numericUpdate, Option.bind]
    rcases hp : parseU64 v with _ | n
    · simp [hp]
    · simp [hp]

/-- `processToken` aborts exactly on a `BadToken` and otherwise performs
the total update `applyToken`. -/
theorem processToken_eq (acc : CacheControl) (t : List Char) :
    processToken acc t = if BadToken t then none else some (applyToken acc t) := by
  by_cases hb : BadToken t
  · rw [if_pos hb]
    obtain ⟨hk, hv⟩ := hb
    unfold IsNumericKey at hk
    simp only [processToken]
    rcases hk with h | h | h | h | h <;>
      (rw [h]; simp only [numericUpdate_eq, if_pos hv]; rfl)
  · rw [if_neg hb]
    simp only [processToken, applyToken]
    by_cases h1 : (tokenKeyVal t).1 = ("public").data
    · rw [h1]; rfl
    by_cases h2 : (tokenKeyVal t).1 = ("private").data
    · rw [h2]; rfl
    by_cases h3 : (tokenKeyVal t).1 = ("no-cache").data
    · rw [h3]; rfl
    by_cases h4 : (tokenKeyVal t).1 = ("only-if-cached").data
    · rw [h4]; rfl
    by_cases h5 : (tokenKeyVal t).1 = ("max-age").data
    · have hv : ¬((tokenKeyVal t).2.bind parseU64 = none) := fun hc => hb ⟨Or.inl h5, hc⟩
      rw [h5]; simp only [numericUpdate_eq, if_neg hv]; rfl
    by_cases h6 : (tokenKeyVal t).1 = ("max-stale").data
    · have hv : ¬((tokenKeyVal t).2.bind parseU64 = none) :=
        fun hc => hb ⟨Or.inr (Or.inl h6), hc⟩
      rw [h6]; simp only [numericUpdate_eq, if_neg hv]; rfl
    by_cases h7 : (tokenKeyVal t).1 = ("min-fresh").data
    · have hv : ¬((tokenKeyVal t).2.bind parseU64 = none) :=
        fun hc => hb ⟨Or.inr (Or.inr (Or.inl h7)), hc⟩
      rw [h7]; simp only [numericUpdate_eq, if_neg hv]; rfl
    by_cases h8 : (tokenKeyVal t).1 = ("must-revalidate").data
    · rw [h8]; rfl
    by_cases h9 : (tokenKeyVal t).1 = ("proxy-revalidate").data
    · rw [h9]; rfl
    by_cases h10 : (tokenKeyVal t).1 = ("immutable").data
    · rw [h10]; rfl
    by_cases h11 : (tokenKeyVal t).1 = ("no-store").data
    · rw [h11]; rfl
    by_cases h12 : (tokenKeyVal t).1 = ("no-transform").data
    · rw [h12]; rfl
    by_cases h13 : (tokenKeyVal t).1 = ("stale-while-revalidate").data
    · have hv : ¬((tokenKeyVal t).2.bind parseU64 = none) :=
        fun hc => hb ⟨Or.inr (Or.inr (Or.inr (Or.inl h13))), hc⟩
      rw [h13]; simp only [numericUpdate_eq, if_neg hv]; rfl
    by_cases h14 : (tokenKeyVal t).1 = ("stale-if-error").data
    · have hv : ¬((tokenKeyVal t).2.bind parseU64 = none) :=
        fun hc => hb ⟨Or.inr (Or.inr (Or.inr (Or.inr h14))), hc⟩
      rw [h14]; simp only [numericUpdate_eq, if_neg hv]; rfl
    simp only [if_neg h1, if_neg h2, if_neg h3, if_neg h4, if_neg h5, if_neg h6, if_neg h7,
      if_neg h8, if_neg h9, if_neg h10, if_neg h11, if_neg h12, if_neg h13, if_neg h14]

/-- How one `applyToken` step moves each field this development reasons
about: `s_max_age` is untouched, `cachability` follows `cachVariantKey`,
and each boolean flag is set (never cleared) by its own key. -/
theorem applyToken_fields (acc : CacheControl) (t : List Char) :
    (applyToken acc t).s_max_age = acc.s_max_age ∧
    (applyToken acc t).cachability =
      (match cachVariantKey (tokenKeyVal t).1 with
       | some v => some v
       | none => acc.cachability) ∧
    (applyToken acc t).must_revalidate =
      (if (tokenKeyVal t).1 = ("must-revalidate").data then true else acc.must_revalidate) ∧
    (applyToken acc t).proxy_revalidate =
      (if (tokenKeyVal t).1 = ("proxy-revalidate").data then true else acc.proxy_revalidate) ∧
    (applyToken acc t).immutable =
      (if (tokenKeyVal t).1 = ("immutable").data then true else acc.immutable) ∧
    (applyToken acc t).no_store =
      (if (tokenKeyVal t).1 = ("no-store").data then true else acc.no_store) ∧
    (applyToken acc t).no_transform =
      (if (tokenKeyVal t).1 = ("no-transform").data then true else acc.no_transform) := by
  simp only [applyToken, cachVariantKey]
  by_cases h1 : (tokenKeyVal t).1 = ("public").data
  · rw [h1]; exact ⟨rfl, rfl, rfl, rfl, rfl, rfl, rfl⟩
  by_cases h2 : (tokenKeyVal t).1 = ("private").data
  · rw [h2]; exact ⟨rfl, rfl, rfl, rfl, rfl, rfl, rfl⟩
  by_cases h3 : (tokenKeyVal t).1 = ("no-cache").data
  · rw [h3]; exact ⟨rfl, rfl, rfl, rfl, rfl, rfl, rfl⟩
  by_cases h4 : (tokenKeyVal t).1 = ("only-if-cached").data
  · rw [h4]; exact ⟨rfl, rfl, rfl, rfl, rfl, rfl, rfl⟩
  by_cases h5 : (tokenKeyVal t).1 = ("max-age").data
  · rw [h5]; exact ⟨rfl, rfl, rfl, rfl, rfl, rfl, rfl⟩
  by_cases h6 : (tokenKeyVal t).1 = ("max-stale").data
  · rw [h6]; exact ⟨rfl, rfl, rfl, rfl, rfl, rfl, rfl⟩
  by_cases h7 : (tokenKeyVal t).1 = ("min-fresh").data
  · rw [h7]; exact ⟨rfl, rfl, rfl, rfl, rfl, rfl, rfl⟩
  by_cases h8 : (tokenKeyVal t).1 = ("must-revalidate").data
  · rw [h8]; exact ⟨rfl, rfl, rfl, rfl, rfl, rfl, rfl⟩
  by_cases h9 : (tokenKeyVal t).1 = ("proxy-revalidate").data
  · rw [h9]; exact ⟨rfl, rfl, rfl, rfl, rfl, rfl, rfl⟩
  by_cases h10 : (tokenKeyVal t).1 = ("immutable").data
  · rw [h10]; exact ⟨rfl, rfl, rfl, rfl, rfl, rfl, rfl⟩
  by_cases h11 : (tokenKeyVal t).1 = ("no-store").data
  · rw [h11]; exact ⟨rfl, rfl, rfl, rfl, rfl, rfl, rfl⟩
  by_cases h12 : (tokenKeyVal t).1 = ("no-transform").data
  · rw [h12]; exact ⟨rfl, rfl, rfl, rfl, rfl, rfl, rfl⟩
  by_cases h13 : (tokenKeyVal t).1 = ("stale-while-revalidate").data
  · rw [h13]; exact ⟨rfl, rfl, rfl, rfl, rfl, rfl, rfl⟩
  by_cases h14 : (tokenKeyVal t).1 = ("stale-if-error").data
  · rw [h14]; exact ⟨rfl, rfl, rfl, rfl, rfl, rfl, rfl⟩
  simp only [if_neg h1, if_neg h2, if_neg h3, if_neg h4, if_neg h5, if_neg h6, if_neg h7,
    if_neg h8, if_neg h9, if_neg h10, if_neg h11, if_neg h12, if_neg h13, if_neg h14]
  simp

/-- The parsing loop succeeds iff no token is bad, and then equals a left
fold of the total per-token update. -/
theorem processTokens_eq (ts : List (List Char)) (acc : CacheControl) :
    processTokens acc ts =
      if ∀ t ∈ ts, ¬ BadToken t then some (ts.foldl applyToken acc) else none := by
  induction ts generalizing acc with
  | nil => rfl
  | cons t ts ih =>
    by_cases hb : BadToken t
    · have hpt : processToken acc t = none := by rw [processToken_eq, if_pos hb]
      simp only [processTokens, hpt]
      rw [if_neg]
      exact fun hall => hall t (List.mem_cons_self t ts) hb
    · have hpt : processToken acc t = some (applyToken acc t) := by
        rw [processToken_eq, if_neg hb]
      simp only [processTokens, hpt]
      rw [ih]
      simp only [List.forall_mem_cons, List.foldl_cons]
      by_cases hall : ∀ t' ∈ ts, ¬ BadToken t'
      · rw [if_pos hall, if_pos]
        exact ⟨hb, hall⟩
      · rw [if_neg hall, if_neg]
        exact fun hc => hall hc.2

/-- `from_value` (on characters) through the same characterisation. -/
theorem fromValueChars_eq (value : List Char) :
    fromValueChars value =
      if ∀ t ∈ splitOnChar ',' value, ¬ BadToken t then
        some ((splitOnChar ',' value).foldl applyToken CacheControl.new)
      else none :=
  processTokens_eq _ _

theorem foldl_s_max_age (ts : List (List Char)) (acc : CacheControl) :
    (ts.foldl applyToken acc).s_max_age = acc.s_max_age := by
  induction ts generalizing acc with
  | nil => rfl
  | cons t ts ih => rw [List.foldl_cons, ih, (applyToken_fields acc t).1]

theorem foldl_flag (f : CacheControl → Bool) (key : List Char)
    (hstep : ∀ acc t, f (applyToken acc t) = if (tokenKeyVal t).1 = key then true else f acc)
    (ts : List (List Char)) (acc : CacheControl) :
    f (ts.foldl applyToken acc) =
      (f acc || ts.any (fun t => decide ((tokenKeyVal t).1 = key))) := by
  induction ts generalizing acc with
  | nil => simp
  | cons t ts ih =>
    rw [List.foldl_cons, ih, hstep]
    by_cases hc : (tokenKeyVal t).1 = key
    · simp [hc]
    · simp [hc]

theorem getLast?_cons_eq {α : Type} (a : α) (l : List α) :
    (a :: l).getLast? = some ((l.getLast?).getD a) := by
  induction l generalizing a with
  | nil => rfl
  | cons b m ih => rw [List.getLast?_cons_cons, ih b]; rfl

theorem foldl_cachability (ts : List (List Char)) (acc : CacheControl) :
    (ts.foldl applyToken acc).cachability =
      (match (ts.filterMap (fun t => cachVariantKey (tokenKeyVal t).1)).getLast? with
       | some v => some v
       | none => acc.cachability) := by
  induction ts generalizing acc with
  | nil => rfl
  | cons t ts ih =>
    rw [List.foldl_cons, ih]
    rcases hv : cachVariantKey (tokenKeyVal t).1 with _ | c
    · have hstep : (applyToken acc t).cachability = acc.cachability := by
        rw [(applyToken_fields acc t).2.1, hv]
      simp only [List.filterMap_cons, hv, hstep]
    · have hstep : (applyToken acc t).cachability = some c := by
        rw [(applyToken_fields acc t).2.1, hv]
      simp only [List.filterMap_cons, hv, hstep, getLast?_cons_eq]
      rcases hl : (ts.filterMap (fun t => cachVariantKey (tokenKeyVal t).1)).getLast? with _ | v
      · simp [hl]
      · simp [hl]

theorem splitOnChar_not_mem {sep : Char} {l : List Char} (h : sep ∉ l) :
    splitOnChar sep l = [l] := by
  induction l with
  | nil => rfl
  | cons c cs ih =>
    have hc : ¬(c = sep) := fun he => h (he ▸ List.mem_cons_self c cs)
    have ihh := ih (fun hm => h (List.mem_cons_of_mem c hm))
    simp only [splitOnChar, if_neg hc, ihh]

theorem splitOnChar_append {sep : Char} {l₁ : List Char} (l₂ : List Char)
    (h : sep ∉ l₁) :
    splitOnChar sep (l₁ ++ sep :: l₂) = l₁ :: splitOnChar sep l₂ := by
  induction l₁ with
  | nil => simp [splitOnChar]
  | cons c cs ih =>
    have hc : ¬(c = sep) := fun he => h (he ▸ List.mem_cons_self c cs)
    have ihh := ih (fun hm => h (List.mem_cons_of_mem c hm))
    simp only [List.cons_append, splitOnChar, if_neg hc, List.append_eq, ihh]

theorem fromValueChars_eq_none_of_bad {value t : List Char}
    (hmem : t ∈ splitOnChar ',' value) (hbad : BadToken t) :
    fromValueChars value = none := by
  rw [fromValueChars_eq, if_neg]
  exact fun hall => hall t hmem hbad

/-- C1, counterexample: the claim says a token with two `=` such as
`"max-age=6=0"` must make the parse fail; in fact `from_value` splits the
token on every `=`, takes piece 1 (`"6"`) as the value, and succeeds with
`max_age = 6` seconds. -/
theorem C1_counterexample :
    CacheControl.from_value "max-age=6=0" ≠ none ∧
    CacheControl.from_value "max-age=6=0" =
      some { CacheControl.default with max_age := some (Duration.new 6 0) } := by
  decide

/-- C1, amended: in `from_value` every token is split on every `=` into
trimmed pieces; the key is piece 0 and the value is piece 1, i.e. the text
strictly between the first and the second `=` when a token has more than
one; hence the token `"max-age=6=0"` has value `"6"`, which parses, and
the parse succeeds with `max_age = 6` seconds. -/
theorem C1_amended_split_on_every_eq (k v₁ v₂ : List Char)
    (hk : '=' ∉ k) (h₁ : '=' ∉ v₁) (h₂ : '=' ∉ v₂) :
    tokenKeyVal (k ++ '=' :: (v₁ ++ '=' :: v₂)) = (trimChars k, some (trimChars v₁)) ∧
    CacheControl.from_value "max-age=6=0" =
      some { CacheControl.default with max_age := some (Duration.new 6 0) } := by
  constructor
  · simp only [tokenKeyVal]
    rw [splitOnChar_append _ hk, splitOnChar_append _ h₁, splitOnChar_not_mem h₂]
    rfl
  · decide

theorem C1_amended_witness :
    tokenKeyVal (("max-age").data ++ '=' :: (("6").data ++ '=' :: ("0").data))
      = (trimChars ("max-age").data, some (trimChars ("6").data)) ∧
    CacheControl.from_value "max-age=6=0" =
      some { CacheControl.default with max_age := some (Duration.new 6 0) } :=
  C1_amended_split_on_every_eq ("max-age").data ("6").data ("0").data
    (by decide) (by decide) (by decide)

/-- C2: if any comma-separated token of the input has one of the five
numeric directive keys (`max-age`, `max-stale`, `min-fresh`,
`stale-while-revalidate`, `stale-if-error`) and its value segment is
missing or does not parse as a `u64`, the whole parse returns `none`,
never a partial record. -/
theorem C2_numeric_directive_failure_aborts (value : String) (t : List Char)
    (hmem : t ∈ splitOnChar ',' value.data)
    (hkey : IsNumericKey (tokenKeyVal t).1)
    (hval : (tokenKeyVal t).2 = none ∨
      ∃ v, (tokenKeyVal t).2 = some v ∧ parseU64 v = none) :
    CacheControl.from_value value = none := by
  refine fromValueChars_eq_none_of_bad hmem ⟨hkey, ?_⟩
  rcases hval with h | ⟨v, hv, hp⟩
  · rw [h]; rfl
  · rw [hv]
    show parseU64 v = none
    exact hp

theorem C2_witness : CacheControl.from_value "public, stale-while-revalidate" = none :=
  C2_numeric_directive_failure_aborts "public, stale-while-revalidate"
    (" stale-while-revalidate").data (by decide) (by decide) (Or.inl (by decide))

/-- C4: whenever `from_value` or `from_header` returns a record, its
`s_max_age` field is `none`: no directive in the dispatch ever sets it. -/
theorem C4_s_max_age_never_set (value : String) (r : CacheControl) :
    (CacheControl.from_value value = some r → r.s_max_age = none) ∧
    (CacheControl.from_header value = some r → r.s_max_age = none) := by
  have hv : ∀ w : List Char, fromValueChars w = some r → r.s_max_age = none := by
    intro w hw
    rw [fromValueChars_eq] at hw
    by_cases hall : ∀ t ∈ splitOnChar ',' w, ¬ BadToken t
    · rw [if_pos hall] at hw
      have h := Option.some.inj hw
      rw [← h, foldl_s_max_age]
      rfl
    · rw [if_neg hall] at hw
      exact absurd hw (by simp)
  constructor
  · exact fun h => hv value.data h
  · intro h
    simp only [CacheControl.from_header] at h
    by_cases hc : ((splitOnChar ':' value.data).map trimChars).length ≠ 2 ∨
        ((splitOnChar ':' value.data).map trimChars).headD [] ≠ ("Cache-Control").data
    · rw [if_pos hc] at h
      exact absurd h (by simp)
    · rw [if_neg hc] at h
      exact hv _ h

theorem C4_witness :
    CacheControl.from_value "no-store" =
      some { CacheControl.default with no_store := true } ∧
    ({ CacheControl.default with no_store := true } : CacheControl).s_max_age = none :=
  ⟨by decide,
    (C4_s_max_age_never_set "no-store" { CacheControl.default with no_store := true }).1
      (by decide)⟩

/-- C7: the empty directive list is legal and yields the zero record:
`from_value ""` and `from_header "Cache-Control: "` both return the
all-defaults record (all optional fields `none`, all flags `false`). -/
theorem C7_empty_is_default :
    CacheControl.from_value "" = some
      { cachability := none, max_age := none, s_max_age := none, max_stale := none,
        min_fresh := none, must_revalidate := false, proxy_revalidate := false,
        immutable := false, no_store := false, no_transform := false,
        stale_while_revalidate := none, stale_if_error := none } ∧
    CacheControl.from_header "Cache-Control: " = some
      { cachability := none, max_age := none, s_max_age := none, max_stale := none,
        min_fresh := none, must_revalidate := false, proxy_revalidate := false,
        immutable := false, no_store := false, no_transform := false,
        stale_while_revalidate := none, stale_if_error := none } := by
  decide

/-- C10: `from_value` and `from_header` are deterministic pure
functions: equal input strings yield structurally equal results, with no
hidden state between calls. -/
theorem C10_deterministic (s t : String) (h : s = t) :
    CacheControl.from_value s = CacheControl.from_value t ∧
    CacheControl.from_header s = CacheControl.from_header t := by
  subst h
  exact ⟨rfl, rfl⟩

theorem C10_witness :
    CacheControl.from_value "no-cache, no-store, must-revalidate" =
      CacheControl.from_value "no-cache, no-store, must-revalidate" ∧
    CacheControl.from_header "no-cache, no-store, must-revalidate" =
      CacheControl.from_header "no-cache, no-store, must-revalidate" :=
  C10_deterministic "no-cache, no-store, must-revalidate"
    "no-cache, no-store, must-revalidate" rfl

/-- C5: on a successful parse the record's `cachability` is the variant
of the last cachability directive (`public`, `private`, `no-cache`,
`only-if-cached`) occurring in the token list, with no error on
conflicting occurrences (it is `none` when no such directive occurs). -/
theorem C5_last_cachability_wins (value : String) (r : CacheControl)
    (h : CacheControl.from_value value = some r) :
    r.cachability =
      ((splitOnChar ',' value.data).filterMap
        (fun t => cachVariantKey (tokenKeyVal t).1)).getLast? := by
  unfold CacheControl.from_value at h
  rw [fromValueChars_eq] at h
  by_cases hall : ∀ t ∈ splitOnChar ',' value.data, ¬ BadToken t
  · rw [if_pos hall] at h
    have he := Option.some.inj h
    rw [← he, foldl_cachability]
    rcases hl : ((splitOnChar ',' value.data).filterMap
        (fun t => cachVariantKey (tokenKeyVal t).1)).getLast? with _ | v
    · rfl
    · rfl
  · rw [if_neg hall] at h
    exact absurd h (by simp)

theorem C5_witness :
    CacheControl.from_value "private, public" =
      some { CacheControl.default with cachability := some Cachability.Public } ∧
    ({ CacheControl.default with cachability := some Cachability.Public } :
        CacheControl).cachability =
      ((splitOnChar ',' ("private, public").data).filterMap
        (fun t => cachVariantKey (tokenKeyVal t).1)).getLast? :=
  ⟨by decide,
    C5_last_cachability_wins "private, public"
      { CacheControl.default with cachability := some Cachability.Public } (by decide)⟩

/-- C6: non-fatal tokens never cause failure: if no token is a numeric
directive with a missing or unparsable value, the parse succeeds —
unknown keys, the empty key, duplicate cachability directives and flag
directives carrying an `=` value included; and each flag directive key
present in the token list forces its boolean to `true` in the result,
whatever value accompanied it. -/
theorem C6_nonfatal_tokens (value : String) :
    ((∀ t ∈ splitOnChar ',' value.data, ¬ BadToken t) →
      (CacheControl.from_value value).isSome = true) ∧
    (∀ r, CacheControl.from_value value = some r →
      ∀ t ∈ splitOnChar ',' value.data,
        ((tokenKeyVal t).1 = ("must-revalidate").data → r.must_revalidate = true) ∧
        ((tokenKeyVal t).1 = ("proxy-revalidate").data → r.proxy_revalidate = true) ∧
        ((tokenKeyVal t).1 = ("immutable").data → r.immutable = true) ∧
        ((tokenKeyVal t).1 = ("no-store").data → r.no_store = true) ∧
        ((tokenKeyVal t).1 = ("no-transform").data → r.no_transform = true)) := by
  constructor
  · intro hall
    unfold CacheControl.from_value
    rw [fromValueChars_eq, if_pos hall]
    rfl
  · intro r hr t ht
    unfold CacheControl.from_value at hr
    rw [fromValueChars_eq] at hr
    by_cases hall : ∀ t' ∈ splitOnChar ',' value.data, ¬ BadToken t'
    · rw [if_pos hall] at hr
      have he := Option.some.inj hr
      refine ⟨?_, ?_, ?_, ?_, ?_⟩ <;> intro hkey
      · rw [← he, foldl_flag (fun c => c.must_revalidate) (("must-revalidate").data)
          (fun a t' => (applyToken_fields a t').2.2.1)]
        simp [List.any_eq_true]
        exact Or.inr ⟨t, ht, hkey⟩
      · rw [← he, foldl_flag (fun c => c.proxy_revalidate) (("proxy-revalidate").data)
          (fun a t' => (applyToken_fields a t').2.2.2.1)]
        simp [List.any_eq_true]
        exact Or.inr ⟨t, ht, hkey⟩
      · rw [← he, foldl_flag (fun c => c.immutable) (("immutable").data)
          (fun a t' => (applyToken_fields a t').2.2.2.2.1)]
        simp [List.any_eq_true]
        exact Or.inr ⟨t, ht, hkey⟩
      · rw [← he, foldl_flag (fun c => c.no_store) (("no-store").data)
          (fun a t' => (applyToken_fields a t').2.2.2.2.2.1)]
        simp [List.any_eq_true]
        exact Or.inr ⟨t, ht, hkey⟩
      · rw [← he, foldl_flag (fun c => c.no_transform) (("no-transform").data)
          (fun a t' => (applyToken_fields a t').2.2.2.2.2.2)]
        simp [List.any_eq_true]
        exact Or.inr ⟨t, ht, hkey⟩
    · rw [if_neg hall] at hr
      exact absurd hr (by simp)

theorem C6_witness :
    (CacheControl.from_value "foo, private, public, immutable=zzz").isSome = true :=
  (C6_nonfatal_tokens "foo, private, public, immutable=zzz").1 (by decide)

/-- C3: `from_header` returns `none` unless splitting on `:` yields
exactly two segments whose first trims to the literal `"Cache-Control"`
(case-sensitive), and otherwise returns exactly the directive parser's
result on the trimmed second segment, failure included. -/
theorem C3_from_header_shape (raw : String) :
    CacheControl.from_header raw =
      match (splitOnChar ':' raw.data).map trimChars with
      | [h, v] => if h = ("Cache-Control").data then fromValueChars v else none
      | _ => none := by
  simp only [CacheControl.from_header]
  rcases hs : (splitOnChar ':' raw.data).map trimChars with _ | ⟨h1, rest⟩
  · rfl
  · cases rest with
    | nil => rfl
    | cons h2 rest2 =>
      cases rest2 with
      | nil =>
        by_cases hc : h1 = ("Cache-Control").data
        · simp [hc]
        · simp [hc]
      | cons h3 rest3 =>
        rw [if_pos]
        exact Or.inl (by simp)

/-- C8: on a successful parse every duration field that is set holds a
non-negative number of seconds; and a numeric directive whose value is
absent or negative (leading `-`) makes the parse fail instead of
producing a negative duration. -/
theorem C8_durations_nonneg (value : String) (r : CacheControl) :
    (CacheControl.from_value value = some r →
      (∀ d, r.max_age = some d → 0 ≤ (d.secs : Int)) ∧
      (∀ d, r.s_max_age = some d → 0 ≤ (d.secs : Int)) ∧
      (∀ d, r.max_stale = some d → 0 ≤ (d.secs : Int)) ∧
      (∀ d, r.min_fresh = some d → 0 ≤ (d.secs : Int)) ∧
      (∀ d, r.stale_while_revalidate = some d → 0 ≤ (d.secs : Int)) ∧
      (∀ d, r.stale_if_error = some d → 0 ≤ (d.secs : Int))) ∧
    (∀ t ∈ splitOnChar ',' value.data, IsNumericKey (tokenKeyVal t).1 →
      ((tokenKeyVal t).2 = none → CacheControl.from_value value = none) ∧
      (∀ rest, (tokenKeyVal t).2 = some ('-' :: rest) →
        CacheControl.from_value value = none)) := by
  constructor
  · intro _
    refine ⟨?_, ?_, ?_, ?_, ?_, ?_⟩ <;> (intro d _; exact Int.natCast_nonneg d.secs)
  · intro t ht hk
    constructor
    · intro hv
      refine fromValueChars_eq_none_of_bad ht ⟨hk, ?_⟩
      rw [hv]
      rfl
    · intro rest hv
      refine fromValueChars_eq_none_of_bad ht ⟨hk, ?_⟩
      rw [hv]
      rfl

theorem C8_witness :
    0 ≤ (((Duration.new 60 0)).secs : Int) ∧
    CacheControl.from_value "max-age=-1" = none := by
  constructor
  · exact (((C8_durations_nonneg "max-age=60"
      { CacheControl.default with max_age := some (Duration.new 60 0) }).1
        (by decide)).1) (Duration.new 60 0) (by decide)
  · exact ((C8_durations_nonneg "max-age=-1" CacheControl.default).2
      (("max-age=-1").data) (by decide) (by decide)).2 (("1").data) (by decide)

theorem parseU64_lt (s : List Char) (n : Nat) (h : parseU64 s = some n) : n < 2 ^ 64 := by
  simp only [parseU64] at h
  split at h
  · exact Option.noConfusion h
  · split at h
    · split at h
      · rwa [← Option.some.inj h]
      · exact Option.noConfusion h
    · exact Option.noConfusion h

/-- C9: for a `max-age=` token the parse outcome is exactly that of
`parseU64` (the model of Rust `u64` parsing, which accepts a leading `+`)
on the trimmed value: any accepted value is below `2 ^ 64`, the largest
`u64` value `18446744073709551615` is accepted, `18446744073709551616`
makes the whole parse fail although it is a non-negative integer, and
`"max-age=+60"` is accepted as 60 seconds. -/
theorem C9_u64_value_acceptance (v : String)
    (hnc : ',' ∉ v.data) (hne : '=' ∉ v.data) :
    (CacheControl.from_value ("max-age=" ++ v) =
      (match parseU64 (trimChars v.data) with
       | some n => some { CacheControl.default with max_age := some (Duration.new n 0) }
       | none => none)) ∧
    (∀ s k, parseU64 s = some k → k < 2 ^ 64) ∧
    CacheControl.from_value "max-age=+60" =
      some { CacheControl.default with max_age := some (Duration.new 60 0) } ∧
    CacheControl.from_value "max-age=18446744073709551615" =
      some { CacheControl.default with max_age := some (Duration.new 18446744073709551615 0) } ∧
    CacheControl.from_value "max-age=18446744073709551616" = none := by
  refine ⟨?_, parseU64_lt, by decide, by decide, by decide⟩
  have hdata : ("max-age=" ++ v).data = ("max-age").data ++ '=' :: v.data := by
    rw [String.data_append]
    rfl
  unfold CacheControl.from_value fromValueChars
  rw [hdata]
  have hne8 : (',' : Char) ∉ ("max-age").data ++ '=' :: v.data := by
    intro hm
    rcases List.mem_append.mp hm with h | h
    · exact absurd h (by decide)
    · rcases List.mem_cons.mp h with h | h
      · exact absurd h (by decide)
      · exact hnc h
  rw [splitOnChar_not_mem hne8]
  have htkv : tokenKeyVal (("max-age").data ++ '=' :: v.data) =
      (("max-age").data, some (trimChars v.data)) := by
    simp only [tokenKeyVal]
    rw [splitOnChar_append _ (by decide), splitOnChar_not_mem hne]
    rfl
  have hpt := processToken_eq CacheControl.new (("max-age").data ++ '=' :: v.data)
  rcases hp : parseU64 (trimChars v.data) with _ | n
  · have hbad : BadToken (("max-age").data ++ '=' :: v.data) := by
      unfold BadToken
      rw [htkv]
      exact ⟨Or.inl rfl, hp⟩
    rw [if_pos hbad] at hpt
    simp only [processTokens, hpt]
  · have hgood : ¬ BadToken (("max-age").data ++ '=' :: v.data) := by
      unfold BadToken
      rw [htkv]
      rintro ⟨_, hcon⟩
      have hcon2 : parseU64 (trimChars v.data) = none := hcon
      rw [hp] at hcon2
      exact Option.noConfusion hcon2
    rw [if_neg hgood] at hpt
    have happ : applyToken CacheControl.new (("max-age").data ++ '=' :: v.data) =
        { CacheControl.default with max_age := some (Duration.new n 0) } := by
      simp only [applyToken]
      rw [htkv]
      rw [show Option.bind (some (trimChars v.data)) parseU64 = parseU64 (trimChars v.data)
        from rfl, hp]
      rfl
    simp only [processTokens, hpt, happ]

theorem C9_witness :
    CacheControl.from_value ("max-age=" ++ "60") =
      (match parseU64 (trimChars ("60").data) with
       | some n => some { CacheControl.default with max_age := some (Duration.new n 0) }
       | none => none) :=
  (C9_u64_value_acceptance "60" (by decide) (by decide)).1

end CacheControlSpec
